import Mathlib

/-!
Verification of the ITR 90 WebSocket–serial bridge (`bridge.py`).

The development shallowly embeds the protocol decoder `parse_itr90_frames`,
the reading sinks (`tui_update_reading`, `write_influx_pressure`), and the
two transport loops (`serial_to_ws`, `ws_to_serial`) as Lean functions.
Bytes are modelled as natural numbers, buffers as `List ℕ`, monotonic time
as `ℚ`, and the IEEE-754 pressure value as an exact real number.
-/

namespace Itr90

/-- `FRAME_LENGTH = 9` from bridge.py. -/
def FRAME_LENGTH : ℕ := 9

/-- The marker scan of `parse_itr90_frames`:
`for i in range(len(buf) - 1): if buf[i] == 7 and buf[i+1] == 5: idx = i; break`.
Returns the first index `i` with `buf[i] = 7` and `buf[i+1] = 5`, else `none`. -/
def findMarker : List ℕ → Option ℕ
  | a :: b :: t => if a = 7 ∧ b = 5 then some 0 else (findMarker (b :: t)).map (· + 1)
  | _ => none

/-- Checksum of a candidate frame: `sum(frame[1:8]) & 0xFF` from bridge.py. -/
def checksumOf (frame : List ℕ) : ℕ := ((frame.drop 1).take 7).sum % 256

/-- Raw pressure field of a frame: `high * 256 + low` with
`high = frame[4]`, `low = frame[5]` from bridge.py. -/
def rawOf (frame : List ℕ) : ℕ := frame.getD 4 0 * 256 + frame.getD 5 0

/-- The pressure computation of bridge.py, `10 ** (raw / 4000 - 12.5)`,
as an exact real number. -/
noncomputable def pressure (raw : ℕ) : ℝ := (10 : ℝ) ^ ((raw : ℝ) / 4000 - 12.5)

theorem findMarker_bound : ∀ {l : List ℕ} {i : ℕ}, findMarker l = some i → i + 2 ≤ l.length := by
  intro l
  induction l with
  | nil => intro i h; simp [findMarker] at h
  | cons a t ih =>
    intro i h
    match t, h with
    | [], h => simp [findMarker] at h
    | b :: t2, h =>
      rw [findMarker] at h
      by_cases hm : a = 7 ∧ b = 5
      · simp [hm] at h
        subst h
        simp
      · simp [hm] at h
        obtain ⟨j, hj, hij⟩ := h
        have := ih hj
        subst hij
        simpa using Nat.succ_le_succ this

theorem findMarker_marker : ∀ {l : List ℕ} {i : ℕ}, findMarker l = some i →
    l.drop i = 7 :: 5 :: l.drop (i + 2) := by
  intro l
  induction l with
  | nil => intro i h; simp [findMarker] at h
  | cons a t ih =>
    intro i h
    match t, h with
    | [], h => simp [findMarker] at h
    | b :: t2, h =>
      rw [findMarker] at h
      by_cases hm : a = 7 ∧ b = 5
      · simp [hm] at h
        subst h
        simp [hm.1, hm.2]
      · simp [hm] at h
        obtain ⟨j, hj, hij⟩ := h
        have := ih hj
        subst hij
        simpa using this

/-- Shallow embedding of `parse_itr90_frames` (bridge.py lines 438–480).
Readings are returned as the raw 16-bit field `high*256 + low`; the float
conversion `pressure` is applied separately (see `parsePressures`).

The loop `while True: ...` is rendered as recursion on the buffer:
* no marker found → keep at most the final byte (`buf = buf[-1:]` when
  `len(buf) > 1`) and stop;
* marker at `i` with fewer than 9 bytes from `i` → stop with remainder
  `buf[i:]`;
* otherwise take the 9-byte candidate, validate the checksum, and continue
  on the rest of the buffer. -/
def parse (buf : List ℕ) : List ℕ × List ℕ :=
  match h : findMarker buf with
  | none => ([], if 1 < buf.length then buf.drop (buf.length - 1) else buf)
  | some i =>
    if h9 : (buf.drop i).length < FRAME_LENGTH then ([], buf.drop i)
    else
      let frame := (buf.drop i).take FRAME_LENGTH
      let out := parse ((buf.drop i).drop FRAME_LENGTH)
      if checksumOf frame = frame.getD 8 0 then (rawOf frame :: out.1, out.2) else out
termination_by buf.length
decreasing_by
  have hb := findMarker_bound h
  simp only [FRAME_LENGTH, List.length_drop] at h9 ⊢
  omega

/-- The readings of a decode pass as pressure values (the list the Python
function returns). -/
noncomputable def parsePressures (buf : List ℕ) : List ℝ := (parse buf).1.map pressure

theorem parse_none {buf : List ℕ} (h : findMarker buf = none) :
    parse buf = ([], if 1 < buf.length then buf.drop (buf.length - 1) else buf) := by
  rw [parse.eq_def]
  split
  · rfl
  · rename_i i hi
    rw [h] at hi
    exact absurd hi (by simp)

theorem parse_wait {buf : List ℕ} {i : ℕ} (h : findMarker buf = some i)
    (h9 : (buf.drop i).length < FRAME_LENGTH) : parse buf = ([], buf.drop i) := by
  rw [parse.eq_def]
  split
  · rename_i hn
    rw [h] at hn
    exact absurd hn (by simp)
  · rename_i j hj
    rw [h] at hj
    injection hj with hj
    subst hj
    rw [dif_pos h9]

theorem parse_step {buf : List ℕ} {i : ℕ} (h : findMarker buf = some i)
    (h9 : ¬ (buf.drop i).length < FRAME_LENGTH) :
    parse buf =
      (if checksumOf ((buf.drop i).take FRAME_LENGTH)
          = ((buf.drop i).take FRAME_LENGTH).getD 8 0
       then (rawOf ((buf.drop i).take FRAME_LENGTH) :: (parse ((buf.drop i).drop FRAME_LENGTH)).1,
             (parse ((buf.drop i).drop FRAME_LENGTH)).2)
       else parse ((buf.drop i).drop FRAME_LENGTH)) := by
  rw [parse.eq_def]
  split
  · rename_i hn
    rw [h] at hn
    exact absurd hn (by simp)
  · rename_i j hj
    rw [h] at hj
    injection hj with hj
    subst hj
    rw [dif_neg h9]

theorem parse_nil : parse [] = ([], []) := by
  rw [parse_none (by rfl)]
  simp

theorem drop_shift (a b : List ℕ) (k j : ℕ) (hk : k ≤ a.length) :
    (a ++ b).drop (k + j) = (a.drop k ++ b).drop j := by
  rw [← List.drop_drop, List.drop_append_of_le_length hk]

theorem findMarker_append_some : ∀ {a : List ℕ} {i : ℕ} (b : List ℕ),
    findMarker a = some i → findMarker (a ++ b) = some i := by
  intro a
  induction a with
  | nil => intro i b h; simp [findMarker] at h
  | cons x t ih =>
    intro i b h
    match t, h with
    | [], h => simp [findMarker] at h
    | y :: t2, h =>
      rw [findMarker] at h
      rw [List.cons_append, List.cons_append, findMarker, ← List.cons_append]
      by_cases hm : x = 7 ∧ y = 5
      · simp only [if_pos hm] at h ⊢
        exact h
      · simp only [if_neg hm] at h ⊢
        obtain ⟨j, hj, hij⟩ := Option.map_eq_some'.mp h
        rw [ih b hj]
        simp [hij]

theorem findMarker_none_append : ∀ {a : List ℕ} (b : List ℕ),
    findMarker a = none → 1 ≤ a.length →
    findMarker (a ++ b) = (findMarker (a.drop (a.length - 1) ++ b)).map (· + (a.length - 1)) := by
  intro a
  induction a with
  | nil => intro b _ h1; simp at h1
  | cons x t ih =>
    intro b h _
    match t, h with
    | [], _ =>
      simp only [List.length_cons, List.length_nil, Nat.add_sub_cancel, List.drop_zero]
      cases hfm : findMarker ([x] ++ b) with
      | none => simp
      | some j => simp
    | y :: t2, h =>
      rw [findMarker] at h
      by_cases hm : x = 7 ∧ y = 5
      · simp [if_pos hm] at h
      · simp only [if_neg hm] at h
        have h2 : findMarker (y :: t2) = none := Option.map_eq_none.mp h
        rw [List.cons_append, List.cons_append, findMarker, ← List.cons_append,
          if_neg hm, ih b h2 (by simp)]
        have hdrop : (y :: t2).drop ((y :: t2).length - 1)
            = (x :: y :: t2).drop ((x :: y :: t2).length - 1) := by
          simp only [List.length_cons, Nat.add_sub_cancel, List.drop_succ_cons]
        rw [hdrop]
        cases hfm : findMarker ((x :: y :: t2).drop ((x :: y :: t2).length - 1) ++ b) with
        | none => simp
        | some j =>
          simp only [Option.map_some']
          congr 1

theorem parse_append_aux : ∀ (n : ℕ) (a : List ℕ), a.length ≤ n → ∀ b : List ℕ,
    parse (a ++ b)
      = ((parse a).1 ++ (parse ((parse a).2 ++ b)).1, (parse ((parse a).2 ++ b)).2) := by
  intro n
  induction n with
  | zero =>
    intro a ha b
    have hnil : a = [] := List.length_eq_zero.mp (Nat.le_zero.mp ha)
    subst hnil
    simp [parse_nil]
  | succ n ih =>
    intro a ha b
    cases hm : findMarker a with
    | none =>
      rw [parse_none hm]
      by_cases hlen : 1 < a.length
      · rw [if_pos hlen]
        have h2 := findMarker_none_append b hm (by omega)
        have hr1 : (a.drop (a.length - 1)).length = 1 := by
          simp [List.length_drop]
          omega
        cases hm2 : findMarker (a.drop (a.length - 1) ++ b) with
        | none =>
          have hmab : findMarker (a ++ b) = none := by rw [h2, hm2]; rfl
          rw [parse_none hmab, parse_none hm2]
          simp only [List.nil_append]
          congr 1
          by_cases hb : b = []
          · subst hb
            have h1 : ¬ 1 < (a.drop (a.length - 1) ++ ([] : List ℕ)).length := by
              simp [hr1]
            rw [if_neg h1]
            have h3 : 1 < (a ++ ([] : List ℕ)).length := by simpa using hlen
            rw [if_pos h3]
            simp
          · have hb1 : 1 ≤ b.length := by
              cases b with
              | nil => exact absurd rfl hb
              | cons c cs => simp
            have h1 : 1 < (a.drop (a.length - 1) ++ b).length := by
              simp [hr1]
              omega
            have h3 : 1 < (a ++ b).length := by simp; omega
            rw [if_pos h1, if_pos h3]
            have e1 : (a ++ b).length - 1 = (a.length - 1) + b.length := by simp; omega
            have e2 : (a.drop (a.length - 1) ++ b).length - 1 = b.length := by
              simp [hr1]
            rw [e1, e2, drop_shift a b (a.length - 1) b.length (by omega)]
        | some j =>
          have hmab : findMarker (a ++ b) = some (j + (a.length - 1)) := by
            rw [h2, hm2]
            rfl
          have hd : (a ++ b).drop (j + (a.length - 1)) = (a.drop (a.length - 1) ++ b).drop j := by
            rw [Nat.add_comm j (a.length - 1)]
            exact drop_shift a b (a.length - 1) j (by omega)
          by_cases h9 : ((a.drop (a.length - 1) ++ b).drop j).length < FRAME_LENGTH
          · rw [parse_wait hmab (by rw [hd]; exact h9), parse_wait hm2 h9, hd]
            simp
          · rw [parse_step hmab (by rw [hd]; exact h9), parse_step hm2 h9, hd]
            simp
      · rw [if_neg hlen]
        have h1 : a.length ≤ 1 := by omega
        cases a with
        | nil => simp [parse_nil]
        | cons x t =>
          cases t with
          | nil => simp
          | cons y t2 => simp at h1
    | some i =>
      have hai : findMarker (a ++ b) = some i := findMarker_append_some b hm
      have hbound := findMarker_bound hm
      have hd : (a ++ b).drop i = a.drop i ++ b :=
        List.drop_append_of_le_length (by omega)
      by_cases h9 : (a.drop i).length < FRAME_LENGTH
      · rw [parse_wait hm h9]
        have hmark : a.drop i = 7 :: 5 :: a.drop (i + 2) := findMarker_marker hm
        have hm0 : findMarker (a.drop i ++ b) = some 0 := by rw [hmark]; rfl
        have hd0 : (a.drop i ++ b).drop 0 = a.drop i ++ b := List.drop_zero _
        by_cases h9b : ((a ++ b).drop i).length < FRAME_LENGTH
        · rw [parse_wait hai h9b, parse_wait hm0 (by rw [hd0, ← hd]; exact h9b)]
          simp [hd]
        · rw [parse_step hai h9b, parse_step hm0 (by rw [hd0, ← hd]; exact h9b), hd0, hd]
          simp
      · have h9b : ¬ ((a ++ b).drop i).length < FRAME_LENGTH := by
          rw [hd]
          simp only [List.length_append]
          simp only [FRAME_LENGTH] at h9 ⊢
          omega
        rw [parse_step hai h9b, parse_step hm h9, hd]
        have htake : (a.drop i ++ b).take FRAME_LENGTH = (a.drop i).take FRAME_LENGTH :=
          List.take_append_of_le_length (by simp only [FRAME_LENGTH] at h9 ⊢; omega)
        have hdrop : (a.drop i ++ b).drop FRAME_LENGTH = (a.drop i).drop FRAME_LENGTH ++ b :=
          List.drop_append_of_le_length (by simp only [FRAME_LENGTH] at h9 ⊢; omega)
        rw [htake, hdrop]
        have hlen2 : ((a.drop i).drop FRAME_LENGTH).length ≤ n := by
          simp only [List.length_drop, List.length_drop, FRAME_LENGTH]
          simp only [List.length_drop, FRAME_LENGTH] at h9
          omega
        rw [ih ((a.drop i).drop FRAME_LENGTH) hlen2 b]
        by_cases hck : checksumOf ((a.drop i).take FRAME_LENGTH)
            = ((a.drop i).take FRAME_LENGTH).getD 8 0
        · rw [if_pos hck, if_pos hck]
          simp
        · rw [if_neg hck, if_neg hck]

/-- Appending more bytes to a buffer decodes the old buffer's frames first
and then continues from its remainder: `parse_itr90_frames` is an
incremental decoder. -/
theorem parse_append (a b : List ℕ) :
    parse (a ++ b)
      = ((parse a).1 ++ (parse ((parse a).2 ++ b)).1, (parse ((parse a).2 ++ b)).2) :=
  parse_append_aux a.length a le_rfl b

theorem parse_rem_shape_aux : ∀ (n : ℕ) (buf : List ℕ), buf.length ≤ n →
    (parse buf).2.length ≤ 1
      ∨ ((parse buf).2.length ≤ 8 ∧ ∃ t, (parse buf).2 = 7 :: 5 :: t) := by
  intro n
  induction n with
  | zero =>
    intro buf hb
    have hnil : buf = [] := List.length_eq_zero.mp (Nat.le_zero.mp hb)
    subst hnil
    simp [parse_nil]
  | succ n ih =>
    intro buf hb
    cases hm : findMarker buf with
    | none =>
      rw [parse_none hm]
      by_cases hlen : 1 < buf.length
      · rw [if_pos hlen]
        left
        simp only [List.length_drop]
        omega
      · rw [if_neg hlen]
        left
        simp only []
        omega
    | some i =>
      by_cases h9 : (buf.drop i).length < FRAME_LENGTH
      · rw [parse_wait hm h9]
        right
        refine ⟨?_, buf.drop (i + 2), ?_⟩
        · show (buf.drop i).length ≤ 8
          simp only [FRAME_LENGTH] at h9
          omega
        · show buf.drop i = 7 :: 5 :: buf.drop (i + 2)
          exact findMarker_marker hm
      · rw [parse_step hm h9]
        have hbound := findMarker_bound hm
        have hlen2 : ((buf.drop i).drop FRAME_LENGTH).length ≤ n := by
          simp only [List.length_drop, FRAME_LENGTH]
          simp only [List.length_drop, FRAME_LENGTH] at h9
          omega
        have := ih ((buf.drop i).drop FRAME_LENGTH) hlen2
        by_cases hck : checksumOf ((buf.drop i).take FRAME_LENGTH)
            = ((buf.drop i).take FRAME_LENGTH).getD 8 0
        · rw [if_pos hck]
          exact this
        · rw [if_neg hck]
          exact this

/-- Shape of the remainder of any decode pass: at most one stray byte, or a
marker-led incomplete frame of at most 8 bytes. -/
theorem parse_rem_shape (buf : List ℕ) :
    (parse buf).2.length ≤ 1
      ∨ ((parse buf).2.length ≤ 8 ∧ ∃ t, (parse buf).2 = 7 :: 5 :: t) :=
  parse_rem_shape_aux buf.length buf le_rfl

/-- A remainder is parse-stable: running the decoder on it again yields no
readings and leaves it unchanged. -/
theorem parse_rem_stable (buf : List ℕ) :
    parse (parse buf).2 = ([], (parse buf).2) := by
  rcases parse_rem_shape buf with h1 | ⟨h8, t, ht⟩
  · cases hx : (parse buf).2 with
    | nil => exact parse_nil
    | cons x s =>
      cases s with
      | nil =>
        rw [parse_none (by rfl)]
        simp
      | cons y s2 =>
        rw [hx] at h1
        simp at h1
  · rw [ht]
    have hm : findMarker (7 :: 5 :: t) = some 0 := rfl
    have hlt : ((7 :: 5 :: t).drop 0).length < FRAME_LENGTH := by
      rw [ht] at h8
      simp only [List.drop_zero, FRAME_LENGTH, List.length_cons]
      simp only [List.length_cons] at h8
      omega
    rw [parse_wait hm hlt]
    simp

/-- The incremental feeding loop of `serial_to_ws`: each chunk is appended
to the threaded remainder and decoded; readings accumulate in order. -/
def feedIncremental : List ℕ → List (List ℕ) → List ℕ × List ℕ
  | pbuf, [] => ([], pbuf)
  | pbuf, c :: cs =>
    ((parse (pbuf ++ c)).1 ++ (feedIncremental (parse (pbuf ++ c)).2 cs).1,
     (feedIncremental (parse (pbuf ++ c)).2 cs).2)

theorem feedIncremental_eq_parse : ∀ (cs : List (List ℕ)) (pbuf : List ℕ),
    parse pbuf = ([], pbuf) →
    feedIncremental pbuf cs = parse (pbuf ++ cs.flatten) := by
  intro cs
  induction cs with
  | nil =>
    intro pbuf hp
    simp [feedIncremental, hp]
  | cons c cs ih =>
    intro pbuf hp
    rw [feedIncremental]
    have hstable : parse (parse (pbuf ++ c)).2 = ([], (parse (pbuf ++ c)).2) :=
      parse_rem_stable (pbuf ++ c)
    rw [ih (parse (pbuf ++ c)).2 hstable]
    have happ := parse_append (pbuf ++ c) cs.flatten
    rw [List.flatten_cons, ← List.append_assoc, happ]

/-- A WebSocket message on the client→device path: a binary payload or any
other (non-binary/control) message. `ws_to_serial` tests
`isinstance(message, bytes)`. -/
inductive WsMessage where
  | binary : List ℕ → WsMessage
  | other : String → WsMessage

/-- One iteration of `ws_to_serial` (bridge.py lines 541–553): a non-empty
binary payload is written verbatim to the serial device
(`if isinstance(message, bytes) and message: ser.write(message)`);
anything else causes no device write. -/
def wsToSerialStep : WsMessage → Option (List ℕ)
  | WsMessage.binary p => if p = [] then none else some p
  | WsMessage.other _ => none

/-- `TUI_UPDATE_HZ = 5` from bridge.py. -/
def TUI_UPDATE_HZ : ℚ := 5

/-- Throttle core of `tui_update_reading` (bridge.py lines 231–242): redraw
only if at least `1 / TUI_UPDATE_HZ` seconds of monotonic time passed since
the last redraw. Returns (redrawn?, new last-draw timestamp). -/
def tuiUpdateReading (lastDraw now : ℚ) : Bool × ℚ :=
  if now - lastDraw < 1 / TUI_UPDATE_HZ then (false, lastDraw) else (true, now)

/-- The InfluxDB client write call, which may fail; `write_influx_pressure`
wraps it in try/except. -/
def influxRawWrite (fail : Bool) : Except String Unit :=
  if fail then Except.error "InfluxDB write error" else Except.ok ()

/-- `write_influx_pressure` (bridge.py lines 483–508): throttled to one write
per second of monotonic time (`if now - _last_influx_write < 1.0: return`);
the throttle timestamp is updated before the write is attempted, and a
failing write is caught and logged as a warning rather than re-raised.
Returns (new last-write timestamp, wrote?, warned?). -/
def writeInfluxPressure (fail : Bool) (lastWrite now : ℚ) : ℚ × Bool × Bool :=
  if now - lastWrite < 1 then (lastWrite, false, false)
  else
    match influxRawWrite fail with
    | Except.ok _ => (now, true, false)
    | Except.error _ => (now, false, true)

/-- Per-sink throttle state: a single last-accepted timestamp per sink
(`_tui_last_draw`, `_last_influx_write`). -/
structure SinkState where
  lastDraw : ℚ
  lastWrite : ℚ

/-- Dispatch of one decoded Reading inside `serial_to_ws`:
`tui_update_reading(pressure)` then `write_influx_pressure(pressure)`.
Returns (new state, redrawn?, wrote?, warned?). -/
def dispatchReading (fail : Bool) (s : SinkState) (now : ℚ) :
    SinkState × Bool × Bool × Bool :=
  (⟨(tuiUpdateReading s.lastDraw now).2, (writeInfluxPressure fail s.lastWrite now).1⟩,
   (tuiUpdateReading s.lastDraw now).1,
   (writeInfluxPressure fail s.lastWrite now).2.1,
   (writeInfluxPressure fail s.lastWrite now).2.2)

/-- Processing a stream of readings: each entry is (arrival time, does the
InfluxDB write fail there?). Returns the final sink state and how many
readings were fully processed. -/
def processAll : List (ℚ × Bool) → SinkState → SinkState × ℕ
  | [], s => (s, 0)
  | (t, f) :: rest, s =>
    ((processAll rest (dispatchReading f s t).1).1,
     (processAll rest (dispatchReading f s t).1).2 + 1)

/-- The device→client loop of `serial_to_ws` (bridge.py lines 515–538) over a
trace of serial reads: every non-empty chunk is forwarded to the client
verbatim (`await ws.send(data)`) before being appended to the decode buffer
and parsed; decoding never alters what is forwarded. Returns (messages sent
to the client, readings dispatched to the sinks, final decode buffer). -/
def serialToWsRun : List ℕ → List (List ℕ) → List (List ℕ) × List ℕ × List ℕ
  | pbuf, [] => ([], [], pbuf)
  | pbuf, c :: cs =>
    if c = [] then serialToWsRun pbuf cs
    else
      (c :: (serialToWsRun (parse (pbuf ++ c)).2 cs).1,
       (parse (pbuf ++ c)).1 ++ (serialToWsRun (parse (pbuf ++ c)).2 cs).2.1,
       (serialToWsRun (parse (pbuf ++ c)).2 cs).2.2)

/-- A concrete well-formed frame: `raw = 0x80*256 + 0x00 = 32768`,
checksum `(5+0+0+128+0+0+0) % 256 = 133`. -/
def c6frame : List ℕ := [7, 5, 0, 0, 128, 0, 0, 0, 133]

/-- The end-to-end scenario stream: a valid frame, three noise bytes, and a
repeat of the same frame. -/
def c6input (n0 n1 n2 : ℕ) : List ℕ := c6frame ++ [n0, n1, n2] ++ c6frame

/-- C1, counterexample: for the buffer `[7,5] ++ F` with the valid frame
`F = [7,5,0,0,0,0,0,0,5]`, the 9-byte candidate at the first marker fails
its checksum and the decoder drops all nine bytes, so the valid frame `F`
that starts immediately after the two marker bytes is NOT decoded in the
same pass (no readings at all), refuting the claimed re-scan from the
position right after the marker. -/
theorem c1_counterexample :
    parse ([7, 5] ++ [7, 5, 0, 0, 0, 0, 0, 0, 5]) = ([], [5])
      ∧ parse [7, 5, 0, 0, 0, 0, 0, 0, 5] = ([0], []) := by
  constructor
  · rw [parse_step (i := 0) (by decide) (by decide)]
    norm_num [checksumOf, rawOf, FRAME_LENGTH]
    rw [parse_none (by decide)]
    norm_num
  · rw [parse_step (i := 0) (by decide) (by decide)]
    norm_num [checksumOf, rawOf, FRAME_LENGTH, parse_nil]

/-- C1, amended: when the decoder finds a marker with at least 9 bytes
available and the 9-byte candidate fails the checksum, it skips past the
WHOLE candidate and re-scans from the byte after it, so a valid frame whose
bytes overlap the failed candidate is lost. -/
theorem c1_failed_checksum_skips_candidate (buf : List ℕ) (i : ℕ)
    (h : findMarker buf = some i) (h9 : ¬ (buf.drop i).length < FRAME_LENGTH)
    (hck : checksumOf ((buf.drop i).take FRAME_LENGTH)
        ≠ ((buf.drop i).take FRAME_LENGTH).getD 8 0) :
    parse buf = parse ((buf.drop i).drop FRAME_LENGTH) := by
  rw [parse_step h h9, if_neg hck]

/-- C1, witness for the amended theorem at a concrete buffer. -/
theorem c1_witness :
    parse [7, 5, 7, 5, 0, 0, 0, 0, 0, 0, 5]
      = parse ((([7, 5, 7, 5, 0, 0, 0, 0, 0, 0, 5] : List ℕ).drop 0).drop FRAME_LENGTH) :=
  c1_failed_checksum_skips_candidate _ 0 (by decide) (by decide) (by decide)

/-- C2: fragmentation invariance — feeding any chunking of a byte stream
incrementally through the decoder, threading each returned remainder back
in at the front of the next call's buffer, produces exactly the readings
(in order) of a single decode pass over the concatenated bytes, and the
same final remainder. -/
theorem c2_fragmentation_invariance (chunks : List (List ℕ)) :
    feedIncremental [] chunks = parse chunks.flatten := by
  have h := feedIncremental_eq_parse chunks [] parse_nil
  simpa using h

/-- C3: progress of the decode loop — whenever an iteration takes a 9-byte
candidate (marker at `i` with at least 9 bytes from it), the buffer passed
to the next iteration is at least 9 bytes shorter; this is the measure by
which the recursion in `parse` terminates on every finite buffer. -/
theorem c3_decode_progress (buf : List ℕ) (i : ℕ) (h : findMarker buf = some i)
    (h9 : ¬ (buf.drop i).length < FRAME_LENGTH) :
    ((buf.drop i).drop FRAME_LENGTH).length + FRAME_LENGTH ≤ buf.length := by
  have hb := findMarker_bound h
  simp only [List.length_drop, FRAME_LENGTH] at h9 ⊢
  omega

/-- C3, witness at a concrete buffer. -/
theorem c3_witness :
    ((([7, 5, 0, 0, 128, 0, 0, 0, 133] : List ℕ).drop 0).drop FRAME_LENGTH).length
        + FRAME_LENGTH ≤ ([7, 5, 0, 0, 128, 0, 0, 0, 133] : List ℕ).length :=
  c3_decode_progress _ 0 (by decide) (by decide)

/-- C4: bounded remainder — after any decode pass the remainder holds at
most 8 bytes (a marker-led incomplete frame), and at most 1 byte when it
contains no marker, so the threaded decode buffer never grows unboundedly. -/
theorem c4_remainder_bounded (buf : List ℕ) :
    (parse buf).2.length ≤ 8
      ∧ (findMarker (parse buf).2 = none → (parse buf).2.length ≤ 1) := by
  rcases parse_rem_shape buf with h1 | ⟨h8, t, ht⟩
  · exact ⟨by omega, fun _ => h1⟩
  · refine ⟨h8, fun hn => ?_⟩
    rw [ht] at hn
    simp [findMarker] at hn

/-- C4, witness at a concrete buffer (remainder empty, no marker). -/
theorem c4_witness :
    (parse []).2.length ≤ 8 ∧ (parse []).2.length ≤ 1 :=
  ⟨(c4_remainder_bounded []).1, (c4_remainder_bounded []).2 (by simp [parse_nil, findMarker])⟩

/-- C5, counterexample: at raw = 32768 the exponent is
32768/4000 − 12.5 = −4.308, not −4.2079…, so the decoded pressure is not
the spec's quoted value 10^(−4.2079…). -/
theorem c5_counterexample : pressure 32768 ≠ (10 : ℝ) ^ ((-42079 : ℝ) / 10000) := by
  unfold pressure
  have he : ((32768 : ℕ) : ℝ) / 4000 - 12.5 = (-4308 : ℝ) / 1000 := by norm_num
  rw [he]
  have hlt : ((-4308 : ℝ) / 1000) < ((-42079 : ℝ) / 10000) := by norm_num
  exact ne_of_lt ((Real.rpow_lt_rpow_left_iff (by norm_num)).mpr hlt)

/-- C5, amended: every valid frame decodes to the Reading
10^((high·256+low)/4000 − 12.5) mbar with high = frame byte 4 and
low = frame byte 5; at raw = 32768 the value is 10^(−4.308) (not
10^(−4.2079…)), and the closed form holds at raw = 0 and raw = 65535. -/
theorem c5_pressure_formula (a2 a3 a4 a5 a6 a7 a8 : ℕ)
    (hck : (5 + a2 + a3 + a4 + a5 + a6 + a7) % 256 = a8) :
    parsePressures [7, 5, a2, a3, a4, a5, a6, a7, a8]
        = [(10 : ℝ) ^ (((a4 * 256 + a5 : ℕ) : ℝ) / 4000 - 12.5)]
      ∧ pressure 32768 = (10 : ℝ) ^ ((-4308 : ℝ) / 1000)
      ∧ pressure 0 = (10 : ℝ) ^ ((-12.5 : ℝ))
      ∧ pressure 65535 = (10 : ℝ) ^ ((65535 : ℝ) / 4000 - 12.5) := by
  refine ⟨?_, ?_, ?_, ?_⟩
  · unfold parsePressures
    rw [parse_step (i := 0) (by rfl) (by simp [FRAME_LENGTH])]
    rw [if_pos (by simp [checksumOf, FRAME_LENGTH]; omega)]
    simp only [List.drop_zero]
    norm_num [rawOf, FRAME_LENGTH, parse_nil, pressure]
  · unfold pressure
    have he : ((32768 : ℕ) : ℝ) / 4000 - 12.5 = (-4308 : ℝ) / 1000 := by norm_num
    rw [he]
  · unfold pressure
    have he : ((0 : ℕ) : ℝ) / 4000 - 12.5 = (-12.5 : ℝ) := by norm_num
    rw [he]
  · unfold pressure
    have he : ((65535 : ℕ) : ℝ) / 4000 - 12.5 = (65535 : ℝ) / 4000 - 12.5 := by norm_num
    rw [he]

/-- C5, witness for the amended theorem at a concrete valid frame. -/
theorem c5_witness :
    parsePressures [7, 5, 0, 0, 0, 0, 0, 0, 5]
        = [(10 : ℝ) ^ (((0 * 256 + 0 : ℕ) : ℝ) / 4000 - 12.5)]
      ∧ pressure 32768 = (10 : ℝ) ^ ((-4308 : ℝ) / 1000)
      ∧ pressure 0 = (10 : ℝ) ^ ((-12.5 : ℝ))
      ∧ pressure 65535 = (10 : ℝ) ^ ((65535 : ℝ) / 4000 - 12.5) :=
  c5_pressure_formula 0 0 0 0 0 0 5 (by decide)

/-- C6, counterexample: with noise bytes (7, 5, 0) between the two copies of
the valid frame, the spurious marker inside the noise makes the decoder
consume a failing 9-byte candidate that swallows the head of the second
frame, so only ONE reading is dispatched even though every emitted byte is
still relayed verbatim — refuting "exactly two Readings for every choice of
the 3 noise bytes". -/
theorem c6_counterexample :
    (serialToWsRun [] [c6input 7 5 0]).1 = [c6input 7 5 0]
      ∧ (serialToWsRun [] [c6input 7 5 0]).2.1.length = 1 := by
  have hp : parse [7, 5, 0, 0, 128, 0, 0, 0, 133, 7, 5, 0, 7, 5, 0, 0, 128, 0, 0, 0, 133]
      = ([32768], [133]) := by
    rw [parse_step (i := 0) (by decide) (by decide)]
    norm_num [checksumOf, rawOf, FRAME_LENGTH]
    rw [parse_step (i := 0) (by decide) (by decide)]
    norm_num [checksumOf, rawOf, FRAME_LENGTH]
    rw [parse_none (by decide)]
    norm_num
  constructor
  · simp [serialToWsRun, c6input, c6frame]
  · simp [serialToWsRun, c6input, c6frame, hp]

/-- C6, amended: in the end-to-end scenario (valid frame, 3 noise bytes,
repeat of the frame) the client receives every emitted byte verbatim for
EVERY choice of the noise bytes, and exactly two Readings are dispatched
whenever the noise bytes do not themselves contain the marker pair (7,5)
(the counterexample shows a marker-like noise pattern loses the second
frame). -/
theorem c6_end_to_end (n0 n1 n2 : ℕ) :
    (serialToWsRun [] [c6input n0 n1 n2]).1 = [c6input n0 n1 n2]
      ∧ (¬(n0 = 7 ∧ n1 = 5) → ¬(n1 = 7 ∧ n2 = 5) →
          (serialToWsRun [] [c6input n0 n1 n2]).2.1 = [32768, 32768]) := by
  constructor
  · simp [serialToWsRun, c6input, c6frame]
  · intro hA hB
    have hfm : findMarker (n0 :: n1 :: n2 :: c6frame) = some 3 := by
      simp only [c6frame]
      rw [findMarker, if_neg hA, findMarker, if_neg hB, findMarker, if_neg (by simp)]
      norm_num [findMarker]
    have hp2 : parse (n0 :: n1 :: n2 :: c6frame) = ([32768], []) := by
      rw [parse_step (i := 3) hfm (by simp [c6frame, FRAME_LENGTH])]
      rw [if_pos (by simp [checksumOf, FRAME_LENGTH, c6frame])]
      norm_num [rawOf, FRAME_LENGTH, c6frame, parse_nil]
    have hp : parse (c6input n0 n1 n2) = ([32768, 32768], []) := by
      show parse (c6frame ++ [n0, n1, n2] ++ c6frame) = ([32768, 32768], [])
      rw [List.append_assoc]
      rw [parse_step (i := 0) (by rw [c6frame]; rfl)
        (by simp [c6frame, FRAME_LENGTH])]
      rw [if_pos (by simp [checksumOf, FRAME_LENGTH, c6frame])]
      have hdrop : ((c6frame ++ ([n0, n1, n2] ++ c6frame)).drop 0).drop FRAME_LENGTH
          = n0 :: n1 :: n2 :: c6frame := by
        simp [c6frame, FRAME_LENGTH]
      rw [hdrop, hp2]
      norm_num [rawOf, FRAME_LENGTH, c6frame]
    simp [serialToWsRun, c6input, c6frame] at hp ⊢
    simp [hp]

/-- C6, witness for the amended theorem at marker-free noise bytes. -/
theorem c6_witness :
    (serialToWsRun [] [c6input 0 0 0]).1 = [c6input 0 0 0]
      ∧ (serialToWsRun [] [c6input 0 0 0]).2.1 = [32768, 32768] :=
  ⟨(c6_end_to_end 0 0 0).1, (c6_end_to_end 0 0 0).2 (by decide) (by decide)⟩

/-- C7: the logger throttle accepts at most one write per 1.0 s of monotonic
time using only a last-accepted timestamp. Starting from a state whose last
write is at least 1 s old: of two Readings 0.1 s apart exactly the first is
accepted; of two Readings 1.1 s apart both are accepted. A Reading inside
the window leaves the throttle state unchanged (dropped, not queued), and
the display sink's accept decision depends only on its own last-draw
timestamp, never on the logger. -/
theorem c7_logger_throttle (last t : ℚ) (h : last + 1 ≤ t) :
    (writeInfluxPressure false last t).2.1 = true
      ∧ (writeInfluxPressure false (writeInfluxPressure false last t).1 (t + 1/10)).2.1 = false
      ∧ (writeInfluxPressure false (writeInfluxPressure false last t).1 (t + 11/10)).2.1 = true
      ∧ (∀ last2 now : ℚ, now - last2 < 1 →
          writeInfluxPressure false last2 now = (last2, false, false))
      ∧ (∀ (f : Bool) (s : SinkState) (now : ℚ),
          (dispatchReading f s now).2.1 = (tuiUpdateReading s.lastDraw now).1) := by
  have hw : writeInfluxPressure false last t = (t, true, false) := by
    rw [writeInfluxPressure, if_neg (by linarith)]
    rfl
  refine ⟨by rw [hw], ?_, ?_, ?_, ?_⟩
  · rw [hw]
    rw [writeInfluxPressure, if_pos (by norm_num)]
  · rw [hw]
    rw [writeInfluxPressure, if_neg (by norm_num)]
    rfl
  · intro last2 now h2
    rw [writeInfluxPressure, if_pos h2]
  · intro f s now
    rfl

/-- C7, witness at `last = 0`, `t = 1`. -/
theorem c7_witness :
    (writeInfluxPressure false 0 1).2.1 = true
      ∧ (writeInfluxPressure false (writeInfluxPressure false 0 1).1 (1 + 1/10)).2.1 = false
      ∧ (writeInfluxPressure false (writeInfluxPressure false 0 1).1 (1 + 11/10)).2.1 = true
      ∧ (∀ last2 now : ℚ, now - last2 < 1 →
          writeInfluxPressure false last2 now = (last2, false, false))
      ∧ (∀ (f : Bool) (s : SinkState) (now : ℚ),
          (dispatchReading f s now).2.1 = (tuiUpdateReading s.lastDraw now).1) :=
  c7_logger_throttle 0 1 (by norm_num)

/-- C8: on the client→device path a message is written to the serial device
exactly when it is a non-empty binary payload, and then it is written
verbatim (the bytes written are the payload itself). -/
theorem c8_client_to_device (m : WsMessage) (out : List ℕ) :
    wsToSerialStep m = some out ↔ m = WsMessage.binary out ∧ out ≠ [] := by
  constructor
  · intro h
    cases m with
    | binary p =>
      by_cases hp : p = []
      · rw [wsToSerialStep, if_pos hp] at h
        exact absurd h (by simp)
      · rw [wsToSerialStep, if_neg hp] at h
        have : p = out := by injection h
        subst this
        exact ⟨rfl, hp⟩
    | other s =>
      rw [wsToSerialStep] at h
      exact absurd h (by simp)
  · rintro ⟨rfl, hne⟩
    rw [wsToSerialStep, if_neg hne]

/-- C8, witness at a concrete non-empty binary payload. -/
theorem c8_witness :
    wsToSerialStep (WsMessage.binary [1, 2]) = some [1, 2]
      ↔ WsMessage.binary [1, 2] = WsMessage.binary [1, 2] ∧ [1, 2] ≠ ([] : List ℕ) :=
  c8_client_to_device (WsMessage.binary [1, 2]) [1, 2]

/-- C9: a failing time-series write is caught — the raw write call errors,
but `write_influx_pressure` returns normally, recording only a warning; the
display sink's decision for the same Reading is identical whether or not
the logger write fails; and a whole stream of Readings is processed to the
end regardless of which writes fail. -/
theorem c9_sink_fault_contained (last now : ℚ) (h : 1 ≤ now - last) :
    influxRawWrite true = Except.error "InfluxDB write error"
      ∧ writeInfluxPressure true last now = (now, false, true)
      ∧ (∀ (f : Bool) (s : SinkState) (t2 : ℚ),
          (dispatchReading f s t2).2.1 = (dispatchReading false s t2).2.1)
      ∧ (∀ (entries : List (ℚ × Bool)) (s0 : SinkState),
          (processAll entries s0).2 = entries.length) := by
  refine ⟨rfl, ?_, ?_, ?_⟩
  · rw [writeInfluxPressure, if_neg (by linarith)]
    rfl
  · intro f s t2
    rfl
  · intro entries
    induction entries with
    | nil => intro s0; rfl
    | cons e rest ih =>
      intro s0
      rw [processAll]
      simp [ih]

/-- C9, witness at `last = 0`, `now = 1`. -/
theorem c9_witness :
    influxRawWrite true = Except.error "InfluxDB write error"
      ∧ writeInfluxPressure true 0 1 = (1, false, true)
      ∧ (∀ (f : Bool) (s : SinkState) (t2 : ℚ),
          (dispatchReading f s t2).2.1 = (dispatchReading false s t2).2.1)
      ∧ (∀ (entries : List (ℚ × Bool)) (s0 : SinkState),
          (processAll entries s0).2 = entries.length) :=
  c9_sink_fault_contained 0 1 (by norm_num)

/-- C10: any remainder of 2 or more bytes starts with the marker bytes 7, 5
(it is an initial segment of a candidate frame), and a remainder that does not
start with the marker has at most 1 byte. -/
theorem c10_remainder_is_marker_led (buf : List ℕ) :
    (2 ≤ (parse buf).2.length →
        (parse buf).2.getD 0 0 = 7 ∧ (parse buf).2.getD 1 0 = 5)
      ∧ (¬((parse buf).2.getD 0 0 = 7 ∧ (parse buf).2.getD 1 0 = 5) →
        (parse buf).2.length ≤ 1) := by
  rcases parse_rem_shape buf with h1 | ⟨h8, t, ht⟩
  · exact ⟨fun h2 => absurd h2 (by omega), fun _ => h1⟩
  · rw [ht]
    exact ⟨fun _ => ⟨rfl, rfl⟩, fun hn => absurd ⟨rfl, rfl⟩ hn⟩

/-- C10, witness at a buffer whose remainder is a 3-byte incomplete frame. -/
theorem c10_witness :
    (parse [7, 5, 1]).2.getD 0 0 = 7 ∧ (parse [7, 5, 1]).2.getD 1 0 = 5 :=
  (c10_remainder_is_marker_led [7, 5, 1]).1
    (by rw [parse_wait (i := 0) (by decide) (by decide)]; norm_num)

end Itr90
